import Mathlib

/-!
Verification of the tic-tac-toe game logic of this repository.

The Python sources are shallowly embedded:
* `game_logic.py` (class `Game`) becomes the structure `Game` together with
  the pure state-transition functions `Game.reset`, `Game.make_move`,
  `Game.undo`, `Game.check_winner_after_move`, `Game.get_winning_line`
  and `Game.get_state_copy`.  Python's mutation of `self` is modelled by
  returning the updated state; the `ValueError` raised by `make_move` is
  modelled by the `Except` monad.
* `models.py` (`Settings`, `Score`) becomes the structures `Settings` and
  `Score`; the file system is abstracted by an explicit read outcome
  (`Option (Except String Json)`) resp. write outcome (`Except String Unit`),
  and Python's `json` values together with the `int`/`str`/`bool`
  conversions are modelled by the `Json` type and `pyInt`/`pyStr`/`pyBool`.
* Of `gui.py` only the score bookkeeping around `do_undo` and
  `_try_make_move` is embedded (`TicTacToeGUI.do_undo`,
  `TicTacToeGUI.update_score_on_game_end`).

`Reachable` describes all game states obtainable from `reset()` by
`make_move` and `undo` calls, and `Inv` is the inductive invariant that the
claim theorems are extracted from.
-/

namespace TTT

/-- The string values stored in the game's fields: the board holds
`""`, `"X"`, `"O"`; the winner field additionally uses `"Draw"`. -/
inductive S where
  | empty
  | X
  | O
  | Draw
deriving DecidableEq, Repr

/-- Python truthiness of the `winner` field (`if self.winner:` in
`make_move`): `None` and the empty string are falsy. -/
def truthy : Option S → Bool
  | none => false
  | some .empty => false
  | some _ => true

/-- `self.board`: a list of rows, each a list of cell values
(`[["" for _ in range(3)] for _ in range(3)]`). -/
abbrev Board := List (List S)

/-- Read `self.board[r][c]`.  In the source every read happens at
validated indices, where `getD` agrees with Python indexing. -/
def getCell (b : Board) (r c : Nat) : S := (b.getD r []).getD c .empty

/-- Write `self.board[r][c] = v` (again only ever used at validated
indices, where `List.set` agrees with Python item assignment). -/
def setCell (b : Board) (r c : Nat) (v : S) : Board :=
  b.set r ((b.getD r []).set c v)

/-- The state of `class Game` in `game_logic.py`: board, current player,
winner, move counter and the `(row, col, player)` move history.
The coordinates recorded in `history` are written after the bounds check
of `make_move` succeeded, hence stored as `Nat`. -/
@[ext]
structure Game where
  board : Board
  current : S
  winner : Option S
  move_count : Int
  history : List (Nat × Nat × S)
deriving DecidableEq, Repr

/-- `Game.reset(starting="X")`. -/
def Game.reset (starting : S := .X) : Game where
  board := [[.empty, .empty, .empty], [.empty, .empty, .empty], [.empty, .empty, .empty]]
  current := starting
  winner := none
  move_count := 0
  history := []

/-- `Game._check_winner_after_move(last_r, last_c)` (the leading
underscore is dropped).  It only reads `self.board`, which is passed
explicitly. -/
def Game.check_winner_after_move (b : Board) (last_r last_c : Nat) : Bool :=
  let p := getCell b last_r last_c
  ([0, 1, 2].all fun c => getCell b last_r c == p) ||
  ([0, 1, 2].all fun r => getCell b r last_c == p) ||
  (last_r == last_c && ([0, 1, 2].all fun i => getCell b i i == p)) ||
  (last_r + last_c == 2 && ([0, 1, 2].all fun i => getCell b i (2 - i) == p))

/-- The state produced by the mutating tail of `make_move` once all three
validation checks have passed (place the symbol, record the move, then
decide between win, draw and turn switch). -/
def Game.moveResult (g : Game) (rn cn : Nat) : Game :=
  let g1 : Game :=
    { g with
      board := setCell g.board rn cn g.current
      history := g.history ++ [(rn, cn, g.current)]
      move_count := g.move_count + 1 }
  if Game.check_winner_after_move g1.board rn cn then
    { g1 with winner := some g1.current }
  else if g1.move_count == 9 then
    { g1 with winner := some .Draw }
  else
    { g1 with current := if g1.current == .X then .O else .X }

/-- `Game.make_move(r, c)`.  `.error` models the raised `ValueError`;
`.ok (b, g')` models returning the boolean `b` with updated state `g'`. -/
def Game.make_move (g : Game) (r c : Int) : Except String (Bool × Game) :=
  if truthy g.winner then .ok (false, g)
  else if ¬(0 ≤ r ∧ r < 3 ∧ 0 ≤ c ∧ c < 3) then .error "row/col out of range"
  else if getCell g.board r.toNat c.toNat != .empty then .ok (false, g)
  else .ok (true, g.moveResult r.toNat c.toNat)

/-- `Game.undo()`.  The source's first conditional
(`if not self.history or (...): pass`) has no effect and is omitted;
popping the history is modelled with `getLast?`/`dropLast`. -/
def Game.undo (g : Game) : Bool × Game :=
  match g.history.getLast? with
  | none => (false, g)
  | some (r, c, player) =>
    (true,
      { board := setCell g.board r c .empty
        current := player
        winner := none
        move_count := g.move_count - 1
        history := g.history.dropLast })

/-- The eight candidate lines built at the top of `get_winning_line`:
three rows, three columns, the two diagonals, in source order. -/
def Game.lines : List (List (Nat × Nat)) :=
  ((List.range 3).map fun r => [(r, 0), (r, 1), (r, 2)]) ++
  ((List.range 3).map fun c => [(0, c), (1, c), (2, c)]) ++
  [[(0, 0), (1, 1), (2, 2)]] ++ [[(0, 2), (1, 1), (2, 0)]]

/-- The per-line test in the loop of `get_winning_line`: unpack
`a, b1, c1 = line` and require `v0 != ""` and both other cells equal to
`v0`. -/
def Game.lineFilled (b : Board) (line : List (Nat × Nat)) : Bool :=
  match line with
  | [a, b1, c1] =>
    let v0 := getCell b a.1 a.2
    v0 != .empty && getCell b b1.1 b1.2 == v0 && getCell b c1.1 c1.2 == v0
  | _ => false

/-- `Game.get_winning_line()`: return the first line whose three cells
are equal and non-empty, else `None`. -/
def Game.get_winning_line (g : Game) : Option (List (Nat × Nat)) :=
  Game.lines.findSome? fun line =>
    if Game.lineFilled g.board line then some line else none

/-- `Game.get_state_copy()`: `[row[:] for row in self.board]`; a Python
slice copy is value-equal to the row itself. -/
def Game.get_state_copy (g : Game) : Board :=
  g.board.map fun row => row

/-- All game states obtainable from `Game()` / `reset()` (the GUI always
resets with the default starting player `"X"`) by `make_move` and `undo`
calls.  A raising `make_move` leaves the state unchanged, so no extra
rule is needed for it. -/
inductive Reachable : Game → Prop where
  | reset : Reachable (Game.reset .X)
  | move {g g' : Game} {r c : Int} {ok : Bool} :
      Reachable g → g.make_move r c = .ok (ok, g') → Reachable g'
  | undo {g g' : Game} {ok : Bool} :
      Reachable g → g.undo = (ok, g') → Reachable g'

/-- `hasLine b` states that some row, column or diagonal of `b` holds
three equal non-empty symbols. -/
def hasLine (b : Board) : Bool := Game.lines.any (Game.lineFilled b)

/-- All nine cells of the board are non-empty. -/
def boardFull (b : Board) : Prop :=
  ∀ r < 3, ∀ c < 3, getCell b r c ≠ S.empty

instance : DecidablePred boardFull := fun b => by
  unfold boardFull; infer_instance

/-- The board is a 3 x 3 grid. -/
def wfBoard (b : Board) : Prop :=
  b.length = 3 ∧ ∀ row ∈ b, row.length = 3

/-- The number of non-empty cells of the board. -/
def countFilled (b : Board) : Nat :=
  (b.flatten.filter fun x => x != S.empty).length

/-- The board cells touched by a history. -/
def cellsOf (h : List (Nat × Nat × S)) : List (Nat × Nat) :=
  h.map fun e => (e.1, e.2.1)

/-- The state a caller of `make_move` holds afterwards: the updated state
on a normal return, the unchanged state when `ValueError` propagates. -/
def stepMove (g : Game) (r c : Int) : Game :=
  match g.make_move r c with
  | .ok (_, g') => g'
  | .error _ => g

/-- Drive a game through a list of attempted moves, as a sequence of
`make_move` calls, counting the calls that return `True`. -/
def runMoves (g : Game) : List (Int × Int) → Game × Nat
  | [] => (g, 0)
  | (r, c) :: ms =>
    match g.make_move r c with
    | .ok (ok, g') =>
      let res := runMoves g' ms
      (res.1, (if ok then 1 else 0) + res.2)
    | .error _ =>
      let res := runMoves g ms
      (res.1, res.2)

/-- The state after `X` plays `(0, 0)` from a fresh game. -/
def g1 : Game where
  board := [[.X, .empty, .empty], [.empty, .empty, .empty], [.empty, .empty, .empty]]
  current := .O
  winner := none
  move_count := 1
  history := [(0, 0, .X)]

/-- A finished game: `X` wins the top row via
`(0,0), (1,0), (0,1), (1,1), (0,2)`. -/
def gWon : Game :=
  stepMove (stepMove (stepMove (stepMove (stepMove (Game.reset .X) 0 0) 1 0) 0 1) 1 1) 0 2

/-- Ten attempted moves covering the whole board (the last one repeats). -/
def tenMoves : List (Int × Int) :=
  [(0, 0), (0, 1), (0, 2), (1, 0), (1, 1), (1, 2), (2, 0), (2, 1), (2, 2), (0, 0)]

/-! ### `models.py` / `config.py`: `Settings` and `Score` with JSON persistence -/

/-- `DEFAULT_WINDOW_WIDTH` in `config.py`. -/
def DEFAULT_WINDOW_WIDTH : Int := 640

/-- `DEFAULT_WINDOW_HEIGHT` in `config.py`. -/
def DEFAULT_WINDOW_HEIGHT : Int := 640

/-- The values `json.loads` can produce (floats are not modelled; the
claims under study only involve absent, malformed or non-numeric data). -/
inductive Json where
  | null
  | bool (b : Bool)
  | num (n : Int)
  | str (s : String)
  | arr (elems : List Json)
  | obj (fields : List (String × Json))

/-- Python `data.get(key, default)`: on a JSON object (a `dict`) look the
key up; on any other value the attribute access raises `AttributeError`. -/
def Json.get : Json → String → Json → Except String Json
  | .obj fields, k, dflt =>
    match fields.lookup k with
    | some jv => .ok jv
    | none => .ok dflt
  | _, _, _ => .error "AttributeError"

/-- Python `int(x)` on a JSON value: ints pass through, bools convert to
0/1, numeric strings parse, anything else raises. -/
def pyInt : Json → Except String Int
  | .num n => .ok n
  | .bool b => .ok (if b then 1 else 0)
  | .str s =>
    match s.trim.toInt? with
    | some n => .ok n
    | none => .error "ValueError"
  | _ => .error "TypeError"

/-- Python `str(x)`: total.  The rendering of containers is abbreviated;
only totality matters for the claims under study. -/
def pyStr : Json → String
  | .null => "None"
  | .bool b => if b then "True" else "False"
  | .num n => toString n
  | .str s => s
  | .arr _ => "<list>"
  | .obj _ => "<dict>"

/-- Python `bool(x)` on a JSON value: total. -/
def pyBool : Json → Bool
  | .null => false
  | .bool b => b
  | .num n => n != 0
  | .str s => s != ""
  | .arr elems => !elems.isEmpty
  | .obj fields => !fields.isEmpty

/-- `class Settings` of `models.py`, with its field defaults. -/
structure Settings where
  width : Int := DEFAULT_WINDOW_WIDTH
  height : Int := DEFAULT_WINDOW_HEIGHT
  theme : String := "Classic"
  show_highlight : Bool := true
  autosave_score : Bool := true
deriving DecidableEq, Repr

/-- The body of the `try` in `Settings.load`: extract and convert the
five fields from the parsed JSON value; every step may raise. -/
def Settings.parse (data : Json) : Except String Settings := do
  let w ← pyInt (← data.get "width" (.num DEFAULT_WINDOW_WIDTH))
  let h ← pyInt (← data.get "height" (.num DEFAULT_WINDOW_HEIGHT))
  let th := pyStr (← data.get "theme" (.str "Classic"))
  let sh := pyBool (← data.get "show_highlight" (.bool true))
  let au := pyBool (← data.get "autosave_score" (.bool true))
  pure { width := w, height := h, theme := th, show_highlight := sh, autosave_score := au }

/-- `Settings.load()`.  The file system is abstracted by `file`: `none`
when `SETTINGS_FILE.exists()` is false, `some (.error e)` when reading
or `json.loads` raises, and `some (.ok data)` when parsing yields
`data`.  An exception inside the `try` is logged (`log_exception`) and
swallowed, falling through to `return cls()`. -/
def Settings.load (file : Option (Except String Json)) : Settings :=
  match file with
  | none => {}
  | some (.error _) => {}
  | some (.ok data) =>
    match Settings.parse data with
    | .ok s => s
    | .error _ => {}

/-- `Settings.save()`: the whole body is a `try` whose exception is
logged and swallowed; `w` is the outcome of the file write. -/
def Settings.save (w : Except String Unit) : Unit :=
  match w with
  | .ok _ => ()
  | .error _ => ()

/-- `class Score` of `models.py`, with its field defaults. -/
structure Score where
  x_wins : Int := 0
  o_wins : Int := 0
  draws : Int := 0
deriving DecidableEq, Repr

/-- The body of the `try` in `Score.load`. -/
def Score.parse (data : Json) : Except String Score := do
  let x ← pyInt (← data.get "x_wins" (.num 0))
  let o ← pyInt (← data.get "o_wins" (.num 0))
  let d ← pyInt (← data.get "draws" (.num 0))
  pure { x_wins := x, o_wins := o, draws := d }

/-- `Score.load()`, abstracted like `Settings.load`. -/
def Score.load (file : Option (Except String Json)) : Score :=
  match file with
  | none => {}
  | some (.error _) => {}
  | some (.ok data) =>
    match Score.parse data with
    | .ok s => s
    | .error _ => {}

/-- `Score.save(autosave=True)`: an early return when autosaving is off,
otherwise a `try` whose exception is logged and swallowed. -/
def Score.save (autosave : Bool := true) (w : Except String Unit) : Unit :=
  if !autosave then ()
  else
    match w with
    | .ok _ => ()
    | .error _ => ()

/-! ### `gui.py`: the score bookkeeping around undo -/

/-- `TicTacToeGUI.do_undo()`: call `Game.undo`, then only update the info
label (returned here as a string; the source's Russian messages are
transliterated).  The score counters are never touched. -/
def TicTacToeGUI.do_undo (g : Game) (sc : Score) : Game × Score × String :=
  match g.undo with
  | (false, g') => (g', sc, "Nothing to undo.")
  | (true, g') => (g', sc, "Last move undone.")

/-- The score update of `_try_make_move` when the game has just ended
(`if self.game.winner:` with the `elif` chain on its value). -/
def TicTacToeGUI.update_score_on_game_end (w : Option S) (sc : Score) : Score :=
  if w = some S.X then { sc with x_wins := sc.x_wins + 1 }
  else if w = some S.O then { sc with o_wins := sc.o_wins + 1 }
  else if w = some S.Draw then { sc with draws := sc.draws + 1 }
  else sc

/-! ### Elementary board lemmas -/

lemma wf_elim {b : Board} (h : wfBoard b) :
    ∃ x00 x01 x02 x10 x11 x12 x20 x21 x22 : S,
      b = [[x00, x01, x02], [x10, x11, x12], [x20, x21, x22]] := by
  obtain ⟨hlen, hrow⟩ := h
  obtain ⟨r0, r1, r2, rfl⟩ := List.length_eq_three.1 hlen
  obtain ⟨x00, x01, x02, rfl⟩ := List.length_eq_three.1 (hrow r0 (by simp))
  obtain ⟨x10, x11, x12, rfl⟩ := List.length_eq_three.1 (hrow r1 (by simp))
  obtain ⟨x20, x21, x22, rfl⟩ := List.length_eq_three.1 (hrow r2 (by simp))
  exact ⟨x00, x01, x02, x10, x11, x12, x20, x21, x22, rfl⟩

lemma wf_setCell {b : Board} (hwf : wfBoard b) {r c : Nat} (hr : r < 3) (hc : c < 3)
    (v : S) : wfBoard (setCell b r c v) := by
  obtain ⟨x00, x01, x02, x10, x11, x12, x20, x21, x22, rfl⟩ := wf_elim hwf
  interval_cases r <;> interval_cases c <;>
    exact ⟨rfl, by intro row hrow; simp [setCell] at hrow; rcases hrow with h | h | h <;> simp [h]⟩

lemma getCell_setCell_self {b : Board} (hwf : wfBoard b) {r c : Nat} (hr : r < 3) (hc : c < 3)
    (v : S) : getCell (setCell b r c v) r c = v := by
  obtain ⟨x00, x01, x02, x10, x11, x12, x20, x21, x22, rfl⟩ := wf_elim hwf
  interval_cases r <;> interval_cases c <;> rfl

lemma getCell_setCell_ne {b : Board} (hwf : wfBoard b) {r c r' c' : Nat}
    (hr : r < 3) (hc : c < 3) (hr' : r' < 3) (hc' : c' < 3)
    (hne : (r', c') ≠ (r, c)) (v : S) :
    getCell (setCell b r c v) r' c' = getCell b r' c' := by
  obtain ⟨x00, x01, x02, x10, x11, x12, x20, x21, x22, rfl⟩ := wf_elim hwf
  interval_cases r <;> interval_cases c <;> interval_cases r' <;> interval_cases c' <;>
    first
    | exact absurd rfl hne
    | rfl

lemma setCell_restore {b : Board} (hwf : wfBoard b) {r c : Nat} (hr : r < 3) (hc : c < 3)
    (he : getCell b r c = .empty) (v : S) :
    setCell (setCell b r c v) r c .empty = b := by
  obtain ⟨x00, x01, x02, x10, x11, x12, x20, x21, x22, rfl⟩ := wf_elim hwf
  interval_cases r <;> interval_cases c <;> (simp [getCell] at he; subst he; rfl)

section LiteralBoards

variable (x00 x01 x02 x10 x11 x12 x20 x21 x22 v : S)

lemma gc00 : getCell [[x00, x01, x02], [x10, x11, x12], [x20, x21, x22]] 0 0 = x00 := rfl

lemma gc01 : getCell [[x00, x01, x02], [x10, x11, x12], [x20, x21, x22]] 0 1 = x01 := rfl

lemma gc02 : getCell [[x00, x01, x02], [x10, x11, x12], [x20, x21, x22]] 0 2 = x02 := rfl

lemma gc10 : getCell [[x00, x01, x02], [x10, x11, x12], [x20, x21, x22]] 1 0 = x10 := rfl

lemma gc11 : getCell [[x00, x01, x02], [x10, x11, x12], [x20, x21, x22]] 1 1 = x11 := rfl

lemma gc12 : getCell [[x00, x01, x02], [x10, x11, x12], [x20, x21, x22]] 1 2 = x12 := rfl

lemma gc20 : getCell [[x00, x01, x02], [x10, x11, x12], [x20, x21, x22]] 2 0 = x20 := rfl

lemma gc21 : getCell [[x00, x01, x02], [x10, x11, x12], [x20, x21, x22]] 2 1 = x21 := rfl

lemma gc22 : getCell [[x00, x01, x02], [x10, x11, x12], [x20, x21, x22]] 2 2 = x22 := rfl

lemma sc00 : setCell [[x00, x01, x02], [x10, x11, x12], [x20, x21, x22]] 0 0 v =
    [[v, x01, x02], [x10, x11, x12], [x20, x21, x22]] := rfl

lemma sc01 : setCell [[x00, x01, x02], [x10, x11, x12], [x20, x21, x22]] 0 1 v =
    [[x00, v, x02], [x10, x11, x12], [x20, x21, x22]] := rfl

lemma sc02 : setCell [[x00, x01, x02], [x10, x11, x12], [x20, x21, x22]] 0 2 v =
    [[x00, x01, v], [x10, x11, x12], [x20, x21, x22]] := rfl

lemma sc10 : setCell [[x00, x01, x02], [x10, x11, x12], [x20, x21, x22]] 1 0 v =
    [[x00, x01, x02], [v, x11, x12], [x20, x21, x22]] := rfl

lemma sc11 : setCell [[x00, x01, x02], [x10, x11, x12], [x20, x21, x22]] 1 1 v =
    [[x00, x01, x02], [x10, v, x12], [x20, x21, x22]] := rfl

lemma sc12 : setCell [[x00, x01, x02], [x10, x11, x12], [x20, x21, x22]] 1 2 v =
    [[x00, x01, x02], [x10, x11, v], [x20, x21, x22]] := rfl

lemma sc20 : setCell [[x00, x01, x02], [x10, x11, x12], [x20, x21, x22]] 2 0 v =
    [[x00, x01, x02], [x10, x11, x12], [v, x21, x22]] := rfl

lemma sc21 : setCell [[x00, x01, x02], [x10, x11, x12], [x20, x21, x22]] 2 1 v =
    [[x00, x01, x02], [x10, x11, x12], [x20, v, x22]] := rfl

lemma sc22 : setCell [[x00, x01, x02], [x10, x11, x12], [x20, x21, x22]] 2 2 v =
    [[x00, x01, x02], [x10, x11, x12], [x20, x21, v]] := rfl

end LiteralBoards

/-- The eight lines, spelled out. -/
lemma lines_eq :
    Game.lines =
      [[(0, 0), (0, 1), (0, 2)], [(1, 0), (1, 1), (1, 2)], [(2, 0), (2, 1), (2, 2)],
       [(0, 0), (1, 0), (2, 0)], [(0, 1), (1, 1), (2, 1)], [(0, 2), (1, 2), (2, 2)],
       [(0, 0), (1, 1), (2, 2)], [(0, 2), (1, 1), (2, 0)]] := by
  rfl

lemma hasLine_false_iff {b : Board} :
    hasLine b = false ↔ ∀ l ∈ Game.lines, Game.lineFilled b l = false := by
  simp [hasLine]

/-- Every coordinate occurring in the eight lines is in range. -/
lemma lines_coords : ∀ l ∈ Game.lines, ∀ p ∈ l, p.1 < 3 ∧ p.2 < 3 := by decide

/-- `lineFilled` only reads the three cells of the line. -/
lemma lineFilled_congr {b1 b2 : Board} {l : List (Nat × Nat)}
    (h : ∀ p ∈ l, getCell b1 p.1 p.2 = getCell b2 p.1 p.2) :
    Game.lineFilled b1 l = Game.lineFilled b2 l := by
  rcases l with _ | ⟨a, _ | ⟨a1, _ | ⟨a2, _ | ⟨a3, t⟩⟩⟩⟩
  · rfl
  · rfl
  · rfl
  · have e0 := h a (by simp)
    have e1 := h a1 (by simp)
    have e2 := h a2 (by simp)
    simp only [Game.lineFilled, e0, e1, e2]
  · rfl

/-- A filled line has no empty cell. -/
lemma lineFilled_nonempty {b : Board} {l : List (Nat × Nat)}
    (h : Game.lineFilled b l = true) : ∀ p ∈ l, getCell b p.1 p.2 ≠ S.empty := by
  rcases l with _ | ⟨a, _ | ⟨a1, _ | ⟨a2, _ | ⟨a3, t⟩⟩⟩⟩
  · exact absurd h (by simp [Game.lineFilled])
  · exact absurd h (by simp [Game.lineFilled])
  · exact absurd h (by simp [Game.lineFilled])
  · rw [show Game.lineFilled b [a, a1, a2] =
        (getCell b a.1 a.2 != S.empty &&
         (getCell b a1.1 a1.2 == getCell b a.1 a.2) &&
         (getCell b a2.1 a2.2 == getCell b a.1 a.2)) from rfl] at h
    rw [Bool.and_eq_true, Bool.and_eq_true, bne_iff_ne, beq_iff_eq, beq_iff_eq] at h
    obtain ⟨⟨h0, h1⟩, h2⟩ := h
    intro p hp
    rcases show p = a ∨ p = a1 ∨ p = a2 by simpa using hp with rfl | rfl | rfl
    · exact h0
    · rw [h1]; exact h0
    · rw [h2]; exact h0
  · exact absurd h (by simp [Game.lineFilled])

/-- Writing a cell off a line does not change whether the line is filled. -/
lemma lineFilled_setCell_not_mem {b : Board} (hwf : wfBoard b) {r c : Nat}
    (hr : r < 3) (hc : c < 3) {l : List (Nat × Nat)} (hl : l ∈ Game.lines)
    (hnm : (r, c) ∉ l) (v : S) :
    Game.lineFilled (setCell b r c v) l = Game.lineFilled b l := by
  refine lineFilled_congr fun p hp => ?_
  obtain ⟨hp1, hp2⟩ := lines_coords l hl p hp
  refine getCell_setCell_ne hwf hr hc hp1 hp2 ?_ v
  intro hpe
  exact hnm (by rwa [← hpe])

/-- The number of filled cells, as a `countP` over the flattened board. -/
lemma countFilled_eq_countP {b : Board} :
    countFilled b = List.countP (fun x => x != S.empty) b.flatten :=
  (List.countP_eq_length_filter _ _).symm

lemma flatten_wf {b : Board} (hwf : wfBoard b) : b.flatten.length = 9 := by
  obtain ⟨x00, x01, x02, x10, x11, x12, x20, x21, x22, rfl⟩ := wf_elim hwf
  rfl

lemma countFilled_le {b : Board} (hwf : wfBoard b) : countFilled b ≤ 9 := by
  rw [countFilled_eq_countP, ← flatten_wf hwf]
  exact List.countP_le_length _

lemma boardFull_iff_flatten {b : Board} (hwf : wfBoard b) :
    boardFull b ↔ ∀ x ∈ b.flatten, x ≠ S.empty := by
  obtain ⟨x00, x01, x02, x10, x11, x12, x20, x21, x22, rfl⟩ := wf_elim hwf
  constructor
  · intro hf x hx
    simp only [List.flatten, List.append_nil, List.cons_append, List.nil_append,
      List.mem_cons, List.not_mem_nil, or_false] at hx
    rcases hx with rfl | rfl | rfl | rfl | rfl | rfl | rfl | rfl | rfl
    exacts [hf 0 (by omega) 0 (by omega), hf 0 (by omega) 1 (by omega), hf 0 (by omega) 2 (by omega),
      hf 1 (by omega) 0 (by omega), hf 1 (by omega) 1 (by omega), hf 1 (by omega) 2 (by omega),
      hf 2 (by omega) 0 (by omega), hf 2 (by omega) 1 (by omega), hf 2 (by omega) 2 (by omega)]
  · intro h r hr c hc
    interval_cases r <;> interval_cases c <;> exact h _ (by simp [List.flatten, getCell])

lemma boardFull_iff_countFilled {b : Board} (hwf : wfBoard b) :
    boardFull b ↔ countFilled b = 9 := by
  rw [boardFull_iff_flatten hwf, countFilled_eq_countP, ← flatten_wf hwf,
    List.countP_eq_length]
  simp

lemma countFilled_setCell_add {b : Board} (hwf : wfBoard b) {r c : Nat}
    (hr : r < 3) (hc : c < 3) (he : getCell b r c = S.empty) {v : S} (hv : v ≠ S.empty) :
    countFilled (setCell b r c v) = countFilled b + 1 := by
  obtain ⟨x00, x01, x02, x10, x11, x12, x20, x21, x22, rfl⟩ := wf_elim hwf
  interval_cases r <;> interval_cases c <;>
    (simp only [gc00, gc01, gc02, gc10, gc11, gc12, gc20, gc21, gc22] at he; subst he;
     simp [sc00, sc01, sc02, sc10, sc11, sc12, sc20, sc21, sc22,
       countFilled_eq_countP, List.flatten, List.countP_cons, hv];
     try omega)

lemma countFilled_setCell_sub {b : Board} (hwf : wfBoard b) {r c : Nat}
    (hr : r < 3) (hc : c < 3) (he : getCell b r c ≠ S.empty) :
    countFilled (setCell b r c S.empty) + 1 = countFilled b := by
  obtain ⟨x00, x01, x02, x10, x11, x12, x20, x21, x22, rfl⟩ := wf_elim hwf
  interval_cases r <;> interval_cases c <;>
    (simp only [gc00, gc01, gc02, gc10, gc11, gc12, gc20, gc21, gc22] at he;
     simp [sc00, sc01, sc02, sc10, sc11, sc12, sc20, sc21, sc22,
       countFilled_eq_countP, List.flatten, List.countP_cons, he];
     try omega)

/-- Clearing a cell that every filled line passes through destroys all
lines. -/
lemma hasLine_clear {b : Board} (hwf : wfBoard b) {r c : Nat}
    (hr : r < 3) (hc : c < 3)
    (hall : ∀ l ∈ Game.lines, Game.lineFilled b l = true → (r, c) ∈ l) :
    hasLine (setCell b r c S.empty) = false := by
  rw [hasLine_false_iff]
  intro l hl
  cases hfb : Game.lineFilled (setCell b r c S.empty) l
  · rfl
  · exfalso
    by_cases hmem : (r, c) ∈ l
    · exact lineFilled_nonempty hfb (r, c) hmem (getCell_setCell_self hwf hr hc _)
    · rw [lineFilled_setCell_not_mem hwf hr hc hl hmem] at hfb
      exact hmem (hall l hl hfb)

/-- Every candidate line has exactly three cells. -/
lemma lines_shape : ∀ l ∈ Game.lines, ∃ a0 a1 a2, l = [a0, a1, a2] := by
  intro l hl
  rw [lines_eq] at hl
  simp only [List.mem_cons, List.not_mem_nil, or_false] at hl
  rcases hl with rfl | rfl | rfl | rfl | rfl | rfl | rfl | rfl <;> exact ⟨_, _, _, rfl⟩

lemma lineFilled_elim {b : Board} {a0 a1 a2 : Nat × Nat}
    (h : Game.lineFilled b [a0, a1, a2] = true) :
    getCell b a0.1 a0.2 ≠ S.empty ∧
      getCell b a1.1 a1.2 = getCell b a0.1 a0.2 ∧
      getCell b a2.1 a2.2 = getCell b a0.1 a0.2 := by
  rw [show Game.lineFilled b [a0, a1, a2] =
      (getCell b a0.1 a0.2 != S.empty &&
       (getCell b a1.1 a1.2 == getCell b a0.1 a0.2) &&
       (getCell b a2.1 a2.2 == getCell b a0.1 a0.2)) from rfl] at h
  rw [Bool.and_eq_true, Bool.and_eq_true, bne_iff_ne, beq_iff_eq, beq_iff_eq] at h
  exact ⟨h.1.1, h.1.2, h.2⟩

lemma lineFilled_intro {b : Board} {a0 a1 a2 : Nat × Nat} {p : S} (hp : p ≠ S.empty)
    (h0 : getCell b a0.1 a0.2 = p) (h1 : getCell b a1.1 a1.2 = p)
    (h2 : getCell b a2.1 a2.2 = p) :
    Game.lineFilled b [a0, a1, a2] = true := by
  rw [show Game.lineFilled b [a0, a1, a2] =
      (getCell b a0.1 a0.2 != S.empty &&
       (getCell b a1.1 a1.2 == getCell b a0.1 a0.2) &&
       (getCell b a2.1 a2.2 == getCell b a0.1 a0.2)) from rfl]
  simp [h0, h1, h2, hp]

/-- A line that is filled after writing cell `(r, c)` of a line-free
board passes through `(r, c)`. -/
lemma lineFilled_new_mem {b : Board} (hwf : wfBoard b) {r c : Nat}
    (hr : r < 3) (hc : c < 3) (hnl : hasLine b = false) {v : S}
    {l : List (Nat × Nat)} (hl : l ∈ Game.lines)
    (hfill : Game.lineFilled (setCell b r c v) l = true) : (r, c) ∈ l := by
  by_contra hnm
  rw [lineFilled_setCell_not_mem hwf hr hc hl hnm] at hfill
  rw [hasLine_false_iff] at hnl
  rw [hnl l hl] at hfill
  exact Bool.false_ne_true hfill

/-- If `_check_winner_after_move(r, c)` reports a win, some line through
`(r, c)` has all its cells equal to the cell `(r, c)`. -/
lemma check_elim {b : Board} {r c : Nat} (hr : r < 3) (hc : c < 3)
    (hcheck : Game.check_winner_after_move b r c = true) :
    ∃ l ∈ Game.lines, (r, c) ∈ l ∧ ∀ q ∈ l, getCell b q.1 q.2 = getCell b r c := by
  simp only [Game.check_winner_after_move, Bool.or_eq_true, Bool.and_eq_true,
    List.all_cons, List.all_nil, Bool.and_true, beq_iff_eq] at hcheck
  rcases hcheck with ((hrow | hcol) | ⟨hd, hdiag⟩) | ⟨ha, hanti⟩
  · refine ⟨[(r, 0), (r, 1), (r, 2)], ?_, ?_, ?_⟩
    · interval_cases r <;> decide
    · interval_cases c <;> simp
    · intro q hq
      rcases show q = (r, 0) ∨ q = (r, 1) ∨ q = (r, 2) by simpa using hq with rfl | rfl | rfl
      exacts [hrow.1, hrow.2.1, hrow.2.2]
  · refine ⟨[(0, c), (1, c), (2, c)], ?_, ?_, ?_⟩
    · interval_cases c <;> decide
    · interval_cases r <;> simp
    · intro q hq
      rcases show q = (0, c) ∨ q = (1, c) ∨ q = (2, c) by simpa using hq with rfl | rfl | rfl
      exacts [hcol.1, hcol.2.1, hcol.2.2]
  · subst hd
    refine ⟨[(0, 0), (1, 1), (2, 2)], by decide, ?_, ?_⟩
    · interval_cases r <;> decide
    · intro q hq
      rcases show q = ((0 : Nat), (0 : Nat)) ∨ q = (1, 1) ∨ q = (2, 2) by simpa using hq with
        rfl | rfl | rfl
      exacts [hdiag.1, hdiag.2.1, hdiag.2.2]
  · refine ⟨[(0, 2), (1, 1), (2, 0)], by decide, ?_, ?_⟩
    · interval_cases r <;> interval_cases c <;> first | decide | omega
    · intro q hq
      rcases show q = ((0 : Nat), (2 : Nat)) ∨ q = (1, 1) ∨ q = (2, 0) by simpa using hq with
        rfl | rfl | rfl
      exacts [hanti.1, hanti.2.1, hanti.2.2]

/-- Conversely, a filled line through `(r, c)` makes
`_check_winner_after_move(r, c)` report a win. -/
lemma check_of_line {b : Board} {r c : Nat} {l : List (Nat × Nat)}
    (hl : l ∈ Game.lines) (hmem : (r, c) ∈ l)
    (hfill : Game.lineFilled b l = true) :
    Game.check_winner_after_move b r c = true := by
  rw [lines_eq] at hl
  simp only [Game.check_winner_after_move, Bool.or_eq_true, Bool.and_eq_true,
    List.all_cons, List.all_nil, Bool.and_true, beq_iff_eq]
  simp only [List.mem_cons, List.not_mem_nil, or_false] at hl
  rcases hl with rfl | rfl | rfl | rfl | rfl | rfl | rfl | rfl <;>
    (obtain ⟨h0, h1, h2⟩ := lineFilled_elim hfill;
     simp only [List.mem_cons, List.not_mem_nil, or_false, Prod.mk.injEq] at hmem;
     rcases hmem with ⟨rfl, rfl⟩ | ⟨rfl, rfl⟩ | ⟨rfl, rfl⟩ <;> simp_all)

/-- After placing a non-empty symbol on an empty cell of a line-free
board, the optimized 4-check of `_check_winner_after_move` agrees with
the existence of a full line. -/
lemma check_iff_hasLine {b : Board} (hwf : wfBoard b) {r c : Nat}
    (hr : r < 3) (hc : c < 3) (he : getCell b r c = S.empty) {v : S}
    (hv : v ≠ S.empty) (hnl : hasLine b = false) :
    Game.check_winner_after_move (setCell b r c v) r c = true ↔
      hasLine (setCell b r c v) = true := by
  constructor
  · intro hcheck
    obtain ⟨l, hl, hmem, hall⟩ := check_elim hr hc hcheck
    have hp : getCell (setCell b r c v) r c = v := getCell_setCell_self hwf hr hc v
    rw [hasLine, List.any_eq_true]
    refine ⟨l, hl, ?_⟩
    rcases lines_shape l hl with ⟨a0, a1, a2, rfl⟩
    refine lineFilled_intro (p := v) hv ?_ ?_ ?_
    · rw [hall a0 (by simp), hp]
    · rw [hall a1 (by simp), hp]
    · rw [hall a2 (by simp), hp]
  · intro hline
    rw [hasLine, List.any_eq_true] at hline
    obtain ⟨l, hl, hfill⟩ := hline
    exact check_of_line hl (lineFilled_new_mem hwf hr hc hnl hl hfill) hfill

/-! ### Branch characterizations of `make_move` and `undo` -/

lemma make_move_winner_set {g : Game} {r c : Int} (ht : truthy g.winner = true) :
    g.make_move r c = .ok (false, g) := by
  rw [Game.make_move, ht]
  rfl

lemma make_move_raise {g : Game} {r c : Int} (ht : truthy g.winner = false)
    (hb : ¬(0 ≤ r ∧ r < 3 ∧ 0 ≤ c ∧ c < 3)) :
    g.make_move r c = .error "row/col out of range" := by
  rw [Game.make_move, ht]
  simp [hb]

lemma make_move_occupied {g : Game} {r c : Int} (ht : truthy g.winner = false)
    (hb : 0 ≤ r ∧ r < 3 ∧ 0 ≤ c ∧ c < 3)
    (ho : getCell g.board r.toNat c.toNat ≠ S.empty) :
    g.make_move r c = .ok (false, g) := by
  rw [Game.make_move, ht]
  simp [hb, ho]

lemma make_move_success {g : Game} {r c : Int} (ht : truthy g.winner = false)
    (hb : 0 ≤ r ∧ r < 3 ∧ 0 ≤ c ∧ c < 3)
    (ho : getCell g.board r.toNat c.toNat = S.empty) :
    g.make_move r c = .ok (true, g.moveResult r.toNat c.toNat) := by
  rw [Game.make_move, ht]
  simp [hb, ho]

/-- Full case analysis of a `make_move` call. -/
lemma make_move_spec (g : Game) (r c : Int) :
    (truthy g.winner = true ∧ g.make_move r c = .ok (false, g)) ∨
    (truthy g.winner = false ∧ ¬(0 ≤ r ∧ r < 3 ∧ 0 ≤ c ∧ c < 3) ∧
      g.make_move r c = .error "row/col out of range") ∨
    (truthy g.winner = false ∧ (0 ≤ r ∧ r < 3 ∧ 0 ≤ c ∧ c < 3) ∧
      getCell g.board r.toNat c.toNat ≠ S.empty ∧ g.make_move r c = .ok (false, g)) ∨
    (truthy g.winner = false ∧ (0 ≤ r ∧ r < 3 ∧ 0 ≤ c ∧ c < 3) ∧
      getCell g.board r.toNat c.toNat = S.empty ∧
      g.make_move r c = .ok (true, g.moveResult r.toNat c.toNat)) := by
  cases ht : truthy g.winner
  · by_cases hb : 0 ≤ r ∧ r < 3 ∧ 0 ≤ c ∧ c < 3
    · by_cases ho : getCell g.board r.toNat c.toNat = S.empty
      · exact Or.inr (Or.inr (Or.inr ⟨rfl, hb, ho, make_move_success ht hb ho⟩))
      · exact Or.inr (Or.inr (Or.inl ⟨rfl, hb, ho, make_move_occupied ht hb ho⟩))
    · exact Or.inr (Or.inl ⟨rfl, hb, make_move_raise ht hb⟩)
  · exact Or.inl ⟨rfl, make_move_winner_set ht⟩

/-- The three post-move shapes, by outcome of the win/draw tests. -/
lemma moveResult_win {g : Game} {rn cn : Nat}
    (h : Game.check_winner_after_move (setCell g.board rn cn g.current) rn cn = true) :
    g.moveResult rn cn =
      { board := setCell g.board rn cn g.current, current := g.current,
        winner := some g.current, move_count := g.move_count + 1,
        history := g.history ++ [(rn, cn, g.current)] } := by
  rw [Game.moveResult]
  simp [h]

lemma moveResult_draw {g : Game} {rn cn : Nat}
    (h : Game.check_winner_after_move (setCell g.board rn cn g.current) rn cn = false)
    (h9 : g.move_count + 1 = 9) :
    g.moveResult rn cn =
      { board := setCell g.board rn cn g.current, current := g.current,
        winner := some S.Draw, move_count := g.move_count + 1,
        history := g.history ++ [(rn, cn, g.current)] } := by
  rw [Game.moveResult]
  simp [h, h9]

lemma moveResult_cont {g : Game} {rn cn : Nat}
    (h : Game.check_winner_after_move (setCell g.board rn cn g.current) rn cn = false)
    (h9 : g.move_count + 1 ≠ 9) :
    g.moveResult rn cn =
      { board := setCell g.board rn cn g.current,
        current := if g.current == S.X then S.O else S.X,
        winner := g.winner, move_count := g.move_count + 1,
        history := g.history ++ [(rn, cn, g.current)] } := by
  rw [Game.moveResult]
  simp [h, h9]

/-- Full case analysis of an `undo` call. -/
lemma undo_spec (g : Game) :
    (g.history = [] ∧ g.undo = (false, g)) ∨
    (∃ hs rl cl p, g.history = hs ++ [(rl, cl, p)] ∧
      g.undo = (true,
        { board := setCell g.board rl cl S.empty, current := p, winner := none,
          move_count := g.move_count - 1, history := hs })) := by
  cases hL : g.history.getLast?
  · left
    have hnil : g.history = [] := List.getLast?_eq_none_iff.1 hL
    rw [Game.undo, hL]
    exact ⟨hnil, rfl⟩
  case some e =>
    obtain ⟨rl, cl, p⟩ := e
    obtain ⟨hs, hcat⟩ := List.getLast?_eq_some_iff.1 hL
    right
    refine ⟨hs, rl, cl, p, hcat, ?_⟩
    rw [Game.undo, hL, hcat, List.dropLast_concat]

/-! ### The inductive invariant -/

/-- The invariant of all reachable game states: the board is a 3 x 3
grid; the current player is a real player; `move_count`, the history
length and the number of occupied cells agree; the history records
distinct in-range cells, faithfully mirrored on the board; the winner
field is `None`, `'X'`, `'O'` or `'Draw'`, is `None` exactly on
line-free boards with fewer than 9 moves, `'Draw'` exactly on line-free
full boards, a player only when a line exists; and every filled line
passes through the most recent move. -/
structure Inv (g : Game) : Prop where
  wf : wfBoard g.board
  cur : g.current = S.X ∨ g.current = S.O
  mc : g.move_count = (g.history.length : Int)
  cnt : countFilled g.board = g.history.length
  hist : ∀ e ∈ g.history,
    e.1 < 3 ∧ e.2.1 < 3 ∧ (e.2.2 = S.X ∨ e.2.2 = S.O) ∧ getCell g.board e.1 e.2.1 = e.2.2
  nodup : (cellsOf g.history).Nodup
  forms : g.winner = none ∨ g.winner = some S.X ∨ g.winner = some S.O ∨ g.winner = some S.Draw
  wnone : g.winner = none → hasLine g.board = false ∧ g.history.length < 9
  wdraw : g.winner = some S.Draw → hasLine g.board = false ∧ g.history.length = 9
  wxo : (g.winner = some S.X ∨ g.winner = some S.O) → hasLine g.board = true
  lastmem : ∀ l ∈ Game.lines, Game.lineFilled g.board l = true →
    ∃ rl cl p, g.history.getLast? = some (rl, cl, p) ∧ (rl, cl) ∈ l

lemma winner_none_of_not_truthy {g : Game} (hi : Inv g)
    (ht : truthy g.winner = false) : g.winner = none := by
  rcases hi.forms with h | h | h | h <;> rw [h] at ht ⊢ <;> simp_all [truthy]

lemma truthy_of_winner_some {g : Game} (hi : Inv g) (hw : g.winner ≠ none) :
    truthy g.winner = true := by
  rcases hi.forms with h | h | h | h <;> rw [h] at hw ⊢ <;> simp_all [truthy]

/-- A successful validated move preserves the invariant. -/
lemma inv_moveResult {g : Game} (hi : Inv g) {rn cn : Nat} (hr : rn < 3) (hc : cn < 3)
    (ho : getCell g.board rn cn = S.empty) (hw : g.winner = none) :
    Inv (g.moveResult rn cn) := by
  have hcur : g.current ≠ S.empty := by rcases hi.cur with h | h <;> simp [h]
  have hnl : hasLine g.board = false := (hi.wnone hw).1
  have hlen : g.history.length < 9 := (hi.wnone hw).2
  have hwf' : wfBoard (setCell g.board rn cn g.current) := wf_setCell hi.wf hr hc _
  have hcic : Game.check_winner_after_move (setCell g.board rn cn g.current) rn cn = true ↔
      hasLine (setCell g.board rn cn g.current) = true :=
    check_iff_hasLine hi.wf hr hc ho hcur hnl
  have hcnt' : countFilled (setCell g.board rn cn g.current) = g.history.length + 1 := by
    rw [countFilled_setCell_add hi.wf hr hc ho hcur, hi.cnt]
  have hlen_app : (g.history ++ [(rn, cn, g.current)]).length = g.history.length + 1 := by
    simp
  have hmc' : g.move_count + 1 = ((g.history ++ [(rn, cn, g.current)]).length : Int) := by
    rw [hi.mc, hlen_app]
    push_cast
    ring
  have hcnt'' : countFilled (setCell g.board rn cn g.current) =
      (g.history ++ [(rn, cn, g.current)]).length := by
    rw [hcnt', hlen_app]
  have hhist' : ∀ e ∈ g.history ++ [(rn, cn, g.current)],
      e.1 < 3 ∧ e.2.1 < 3 ∧ (e.2.2 = S.X ∨ e.2.2 = S.O) ∧
        getCell (setCell g.board rn cn g.current) e.1 e.2.1 = e.2.2 := by
    intro e he
    rcases List.mem_append.1 he with hmem | hnew
    · obtain ⟨h1, h2, h3, h4⟩ := hi.hist e hmem
      refine ⟨h1, h2, h3, ?_⟩
      rw [getCell_setCell_ne hi.wf hr hc h1 h2 ?_ _]
      · exact h4
      · intro hpe
        rw [Prod.mk.injEq] at hpe
        rw [hpe.1, hpe.2, ho] at h4
        rcases h3 with h3 | h3 <;> exact S.noConfusion (h4.trans h3)
    · have he' : e = (rn, cn, g.current) := by simpa using hnew
      subst he'
      exact ⟨hr, hc, hi.cur, getCell_setCell_self hi.wf hr hc _⟩
  have hnotin : (rn, cn) ∉ cellsOf g.history := by
    intro hmem
    simp only [cellsOf, List.mem_map] at hmem
    obtain ⟨e, he, hpe⟩ := hmem
    obtain ⟨h1, h2, h3, h4⟩ := hi.hist e he
    rw [Prod.mk.injEq] at hpe
    rw [hpe.1, hpe.2, ho] at h4
    rcases h3 with h3 | h3 <;> exact S.noConfusion (h4.trans h3)
  have hnodup' : (cellsOf (g.history ++ [(rn, cn, g.current)])).Nodup := by
    rw [show cellsOf (g.history ++ [(rn, cn, g.current)]) =
        cellsOf g.history ++ [(rn, cn)] by simp [cellsOf]]
    rw [(List.perm_append_singleton _ _).nodup_iff]
    exact List.nodup_cons.2 ⟨hnotin, hi.nodup⟩
  have hlast' : ∀ l ∈ Game.lines,
      Game.lineFilled (setCell g.board rn cn g.current) l = true →
      ∃ rl cl p, (g.history ++ [(rn, cn, g.current)]).getLast? = some (rl, cl, p) ∧
        (rl, cl) ∈ l := by
    intro l hl hfill
    exact ⟨rn, cn, g.current, List.getLast?_concat _,
      lineFilled_new_mem hi.wf hr hc hnl hl hfill⟩
  cases hcheck : Game.check_winner_after_move (setCell g.board rn cn g.current) rn cn
  · have hnl' : hasLine (setCell g.board rn cn g.current) = false := by
      cases hll : hasLine (setCell g.board rn cn g.current)
      · rfl
      · have := hcic.2 hll
        rw [hcheck] at this
        exact Bool.noConfusion this
    by_cases h9 : g.move_count + 1 = 9
    · rw [moveResult_draw hcheck h9]
      have hlen9 : (g.history ++ [(rn, cn, g.current)]).length = 9 := by
        rw [hlen_app]
        have hm := hi.mc
        omega
      exact
        { wf := hwf', cur := hi.cur, mc := hmc', cnt := hcnt'', hist := hhist',
          nodup := hnodup',
          forms := Or.inr (Or.inr (Or.inr rfl)),
          wnone := fun h => Option.noConfusion h,
          wdraw := fun _ => ⟨hnl', hlen9⟩,
          wxo := fun h => by rcases h with h | h <;> exact S.noConfusion (Option.some.inj h),
          lastmem := hlast' }
    · rw [moveResult_cont hcheck h9]
      have hlen' : (g.history ++ [(rn, cn, g.current)]).length < 9 := by
        rw [hlen_app]
        have hm := hi.mc
        omega
      exact
        { wf := hwf',
          cur := by rcases hi.cur with h | h <;> simp [h],
          mc := hmc', cnt := hcnt'', hist := hhist', nodup := hnodup',
          forms := by rw [hw]; exact Or.inl rfl,
          wnone := fun _ => ⟨hnl', hlen'⟩,
          wdraw := fun h => by rw [hw] at h; exact Option.noConfusion h,
          wxo := fun h => by rw [hw] at h; rcases h with h | h <;> exact Option.noConfusion h,
          lastmem := hlast' }
  · rw [moveResult_win hcheck]
    exact
      { wf := hwf', cur := hi.cur, mc := hmc', cnt := hcnt'', hist := hhist',
        nodup := hnodup',
        forms := by rcases hi.cur with h | h <;> rw [h] <;> simp,
        wnone := fun h => Option.noConfusion h,
        wdraw := fun h => by
          have := Option.some.inj h
          rcases hi.cur with h' | h' <;> rw [h'] at this <;> exact S.noConfusion this,
        wxo := fun _ => hcic.1 hcheck,
        lastmem := hlast' }

/-- Any `make_move` call (succeeding or not) preserves the invariant. -/
lemma inv_make_move {g g' : Game} {r c : Int} {ok : Bool} (hi : Inv g)
    (h : g.make_move r c = .ok (ok, g')) : Inv g' := by
  rcases make_move_spec g r c with ⟨ht, he⟩ | ⟨ht, hb, he⟩ | ⟨ht, hb, ho, he⟩ |
    ⟨ht, hb, ho, he⟩
  · obtain ⟨h1, h2⟩ : false = ok ∧ g = g' := by simpa using he.symm.trans h
    exact h2 ▸ hi
  · rw [h] at he
    exact Except.noConfusion he
  · obtain ⟨h1, h2⟩ : false = ok ∧ g = g' := by simpa using he.symm.trans h
    exact h2 ▸ hi
  · obtain ⟨h1, h2⟩ : true = ok ∧ g.moveResult r.toNat c.toNat = g' := by
      simpa using he.symm.trans h
    have hr : r.toNat < 3 := by omega
    have hc : c.toNat < 3 := by omega
    exact h2 ▸ inv_moveResult hi hr hc ho (winner_none_of_not_truthy hi ht)

/-- Any `undo` call preserves the invariant. -/
lemma inv_undo {g g' : Game} {ok : Bool} (hi : Inv g)
    (h : g.undo = (ok, g')) : Inv g' := by
  rcases undo_spec g with ⟨hnil, hu⟩ | ⟨hs, rl, cl, p, hcat, hu⟩
  · obtain ⟨h1, h2⟩ : false = ok ∧ g = g' := by simpa using hu.symm.trans h
    exact h2 ▸ hi
  · obtain ⟨h1, h2⟩ :
        true = ok ∧
          ({ board := setCell g.board rl cl S.empty, current := p, winner := none,
             move_count := g.move_count - 1, history := hs } : Game) = g' := by
      simpa using hu.symm.trans h
    subst h2
    have hlast : (rl, cl, p) ∈ g.history := by
      rw [hcat]
      simp
    obtain ⟨hrl', hcl', hpXO', hcell'⟩ := hi.hist _ hlast
    have hrl : rl < 3 := hrl'
    have hcl : cl < 3 := hcl'
    have hpXO : p = S.X ∨ p = S.O := hpXO'
    have hcell : getCell g.board rl cl = p := hcell'
    have hpne : getCell g.board rl cl ≠ S.empty := by
      rw [hcell]
      rcases hpXO with h' | h' <;> simp [h']
    have hlenc : g.history.length = hs.length + 1 := by
      rw [hcat]
      simp
    have hle9 : g.history.length ≤ 9 := by
      rw [← hi.cnt]
      exact countFilled_le hi.wf
    have hcells : cellsOf g.history = cellsOf hs ++ [(rl, cl)] := by
      rw [hcat]
      simp [cellsOf]
    have hnotin : (rl, cl) ∉ cellsOf hs := by
      have := hi.nodup
      rw [hcells, (List.perm_append_singleton _ _).nodup_iff, List.nodup_cons] at this
      exact this.1
    have hglast : g.history.getLast? = some (rl, cl, p) := by
      rw [hcat]
      exact List.getLast?_concat _
    have hall : ∀ l ∈ Game.lines, Game.lineFilled g.board l = true → (rl, cl) ∈ l := by
      intro l hl hfill
      obtain ⟨rl', cl', p', hsome, hmem⟩ := hi.lastmem l hl hfill
      rw [hglast] at hsome
      obtain ⟨h1', h2', h3'⟩ : rl = rl' ∧ cl = cl' ∧ p = p' := by
        have := Option.some.inj hsome
        simp only [Prod.mk.injEq] at this
        exact ⟨this.1, this.2.1, this.2.2⟩
      rw [h1', h2']
      exact hmem
    have hnl' : hasLine (setCell g.board rl cl S.empty) = false :=
      hasLine_clear hi.wf hrl hcl hall
    exact
      { wf := wf_setCell hi.wf hrl hcl _,
        cur := hpXO,
        mc := by
          show g.move_count - 1 = (hs.length : Int)
          have hm := hi.mc
          rw [hlenc] at hm
          push_cast at hm ⊢
          omega,
        cnt := by
          show countFilled (setCell g.board rl cl S.empty) = hs.length
          have hc' := countFilled_setCell_sub hi.wf hrl hcl hpne
          rw [hi.cnt, hlenc] at hc'
          omega,
        hist := by
          intro e he
          have hmem : e ∈ g.history := by
            rw [hcat]
            exact List.mem_append_left _ he
          obtain ⟨h1', h2', h3', h4'⟩ := hi.hist e hmem
          refine ⟨h1', h2', h3', ?_⟩
          rw [getCell_setCell_ne hi.wf hrl hcl h1' h2' ?_ _]
          · exact h4'
          · intro hpe
            apply hnotin
            rw [← hpe]
            exact List.mem_map.2 ⟨e, he, rfl⟩,
        nodup := by
          have := hi.nodup
          rw [hcells] at this
          exact ((List.sublist_append_left _ _).nodup) this,
        forms := Or.inl rfl,
        wnone := fun _ => ⟨hnl', by show hs.length < 9; omega⟩,
        wdraw := fun h' => Option.noConfusion h',
        wxo := fun h' => by rcases h' with h' | h' <;> exact Option.noConfusion h',
        lastmem := by
          intro l hl hfill
          have hfalse := hasLine_false_iff.1 hnl' l hl
          rw [hfill] at hfalse
          exact Bool.noConfusion hfalse }

/-- The initial state satisfies the invariant. -/
lemma inv_reset : Inv (Game.reset .X) := by
  have h0 : hasLine (Game.reset .X).board = false := by decide
  refine
    { wf := ⟨rfl, ?_⟩,
      cur := Or.inl rfl,
      mc := rfl,
      cnt := rfl,
      hist := ?_,
      nodup := List.nodup_nil,
      forms := Or.inl rfl,
      wnone := fun _ => ⟨h0, by decide⟩,
      wdraw := fun h => Option.noConfusion h,
      wxo := fun h => by rcases h with h | h <;> exact Option.noConfusion h,
      lastmem := ?_ }
  · intro row h'
    rcases show row = [S.empty, S.empty, S.empty] ∨ row = [S.empty, S.empty, S.empty] ∨
        row = [S.empty, S.empty, S.empty] by simpa [Game.reset] using h' with rfl | rfl | rfl <;>
      rfl
  · intro e he
    exact absurd he (by simp [Game.reset])
  · intro l hl hfill
    have hfalse := hasLine_false_iff.1 h0 l hl
    rw [hfill] at hfalse
    exact Bool.noConfusion hfalse

/-- Every reachable state satisfies the invariant. -/
theorem inv_reachable {g : Game} (h : Reachable g) : Inv g := by
  induction h with
  | reset => exact inv_reset
  | move _ hm ih => exact inv_make_move ih hm
  | undo _ hu ih => exact inv_undo ih hu

/-! ### Derived facts used by the claim theorems -/

lemma get_winning_line_eq_none {g : Game} :
    g.get_winning_line = none ↔ hasLine g.board = false := by
  rw [Game.get_winning_line, List.findSome?_eq_none_iff, hasLine_false_iff]
  constructor
  · intro h l hl
    have h' := h l hl
    cases hf : Game.lineFilled g.board l
    · rfl
    · rw [hf] at h'
      exact absurd h' (by simp)
  · intro h l hl
    rw [h l hl]
    rfl

lemma moveResult_board {g : Game} {rn cn : Nat} :
    (g.moveResult rn cn).board = setCell g.board rn cn g.current := by
  rw [Game.moveResult]
  split
  · rfl
  split
  · rfl
  · rfl

lemma moveResult_history {g : Game} {rn cn : Nat} :
    (g.moveResult rn cn).history = g.history ++ [(rn, cn, g.current)] := by
  rw [Game.moveResult]
  split
  · rfl
  split
  · rfl
  · rfl

lemma moveResult_move_count {g : Game} {rn cn : Nat} :
    (g.moveResult rn cn).move_count = g.move_count + 1 := by
  rw [Game.moveResult]
  split
  · rfl
  split
  · rfl
  · rfl

/-- A reported move changes `move_count` by 1 exactly when it returned
`True`. -/
lemma make_move_count {g g' : Game} {r c : Int} {ok : Bool}
    (h : g.make_move r c = .ok (ok, g')) :
    g'.move_count = g.move_count + (if ok then 1 else 0) := by
  rcases make_move_spec g r c with ⟨ht, he⟩ | ⟨ht, hb, he⟩ | ⟨ht, hb, ho, he⟩ |
    ⟨ht, hb, ho, he⟩
  · obtain ⟨h1, h2⟩ : false = ok ∧ g = g' := by simpa using he.symm.trans h
    rw [← h1, ← h2]
    simp
  · rw [h] at he
    exact Except.noConfusion he
  · obtain ⟨h1, h2⟩ : false = ok ∧ g = g' := by simpa using he.symm.trans h
    rw [← h1, ← h2]
    simp
  · obtain ⟨h1, h2⟩ : true = ok ∧ g.moveResult r.toNat c.toNat = g' := by
      simpa using he.symm.trans h
    rw [← h1, ← h2, moveResult_move_count]
    simp

lemma reachable_stepMove {g : Game} (h : Reachable g) (r c : Int) :
    Reachable (stepMove g r c) := by
  cases hm : g.make_move r c with
  | ok p =>
    obtain ⟨ok, g'⟩ := p
    have : stepMove g r c = g' := by rw [stepMove, hm]
    rw [this]
    exact Reachable.move h hm
  | error e =>
    have : stepMove g r c = g := by rw [stepMove, hm]
    rw [this]
    exact h

/-- Running a list of moves keeps the state reachable, and the final
move counter is the initial one plus the number of `True` returns. -/
lemma runMoves_reachable {g : Game} (h : Reachable g) (ms : List (Int × Int)) :
    Reachable (runMoves g ms).1 ∧
      (runMoves g ms).1.move_count = g.move_count + ((runMoves g ms).2 : Int) := by
  induction ms generalizing g with
  | nil => exact ⟨h, by simp [runMoves]⟩
  | cons m ms ih =>
    obtain ⟨r, c⟩ := m
    cases hm : g.make_move r c with
    | ok p =>
      obtain ⟨ok, g'⟩ := p
      have h' : Reachable g' := Reachable.move h hm
      obtain ⟨ihr, ihc⟩ := ih h'
      have hcount := make_move_count hm
      refine ⟨by simpa [runMoves, hm] using ihr, ?_⟩
      have hres : (runMoves g ((r, c) :: ms)).1 = (runMoves g' ms).1 ∧
          (runMoves g ((r, c) :: ms)).2 = (if ok then 1 else 0) + (runMoves g' ms).2 := by
        rw [runMoves, hm]
        exact ⟨rfl, rfl⟩
      rw [hres.1, hres.2, ihc, hcount]
      push_cast
      cases ok <;> (simp; try ring)
    | error e =>
      obtain ⟨ihr, ihc⟩ := ih h
      have hres : (runMoves g ((r, c) :: ms)).1 = (runMoves g ms).1 ∧
          (runMoves g ((r, c) :: ms)).2 = (runMoves g ms).2 := by
        rw [runMoves, hm]
        exact ⟨rfl, rfl⟩
      rw [hres.1, hres.2]
      exact ⟨ihr, ihc⟩

/-! ### The claims -/

/-- C1: In every reachable game state, `winner` is non-empty iff some
row, column or diagonal holds three equal non-empty symbols or all nine
cells are non-empty, and `winner` is `'X'` or `'O'` exactly when such a
uniform non-empty line exists. -/
theorem C1_winner_iff (g : Game) (h : Reachable g) :
    (g.winner ≠ none ↔ (hasLine g.board = true ∨ boardFull g.board)) ∧
    ((g.winner = some S.X ∨ g.winner = some S.O) ↔ hasLine g.board = true) := by
  have hi := inv_reachable h
  have hfull : boardFull g.board ↔ g.history.length = 9 := by
    rw [boardFull_iff_countFilled hi.wf, hi.cnt]
  constructor
  · constructor
    · intro hne
      rcases hi.forms with hf | hf | hf | hf
      · exact absurd hf hne
      · exact Or.inl (hi.wxo (Or.inl hf))
      · exact Or.inl (hi.wxo (Or.inr hf))
      · exact Or.inr (hfull.2 (hi.wdraw hf).2)
    · intro hor hwn
      rcases hor with hl | hf
      · rw [(hi.wnone hwn).1] at hl
        exact Bool.noConfusion hl
      · have hp := (hi.wnone hwn).2
        rw [hfull] at hf
        omega
  · constructor
    · exact hi.wxo
    · intro hl
      rcases hi.forms with hf | hf | hf | hf
      · rw [(hi.wnone hf).1] at hl
        exact Bool.noConfusion hl
      · exact Or.inl hf
      · exact Or.inr hf
      · rw [(hi.wdraw hf).1] at hl
        exact Bool.noConfusion hl

theorem C1_winner_iff_witness :
    (gWon.winner ≠ none ↔ (hasLine gWon.board = true ∨ boardFull gWon.board)) ∧
    ((gWon.winner = some S.X ∨ gWon.winner = some S.O) ↔ hasLine gWon.board = true) :=
  C1_winner_iff gWon
    (reachable_stepMove (reachable_stepMove (reachable_stepMove (reachable_stepMove
      (reachable_stepMove Reachable.reset 0 0) 1 0) 0 1) 1 1) 0 2)

/-- C2: From every reachable state, a `make_move` that returns `True`
is exactly inverted by `undo`: it returns `True` and restores the
previous state (board, current player, winner, move count, history). -/
theorem C2_undo_inverse {g g' : Game} {r c : Int} (h : Reachable g)
    (hm : g.make_move r c = .ok (true, g')) : g'.undo = (true, g) := by
  have hi := inv_reachable h
  rcases make_move_spec g r c with ⟨ht, he⟩ | ⟨ht, hb, he⟩ | ⟨ht, hb, ho, he⟩ |
    ⟨ht, hb, ho, he⟩
  · obtain ⟨h1, h2⟩ : false = true ∧ g = g' := by simpa using he.symm.trans hm
    exact Bool.noConfusion h1
  · rw [hm] at he
    exact Except.noConfusion he
  · obtain ⟨h1, h2⟩ : false = true ∧ g = g' := by simpa using he.symm.trans hm
    exact Bool.noConfusion h1
  · obtain ⟨h1, h2⟩ : true = true ∧ g.moveResult r.toNat c.toNat = g' := by
      simpa using he.symm.trans hm
    have hw : g.winner = none := winner_none_of_not_truthy hi ht
    have hr : r.toNat < 3 := by omega
    have hc : c.toNat < 3 := by omega
    subst h2
    rw [Game.undo, moveResult_history, List.getLast?_concat]
    have hrest : setCell (g.moveResult r.toNat c.toNat).board r.toNat c.toNat S.empty =
        g.board := by
      rw [moveResult_board, setCell_restore hi.wf hr hc ho]
    rw [Prod.mk.injEq]
    refine ⟨rfl, ?_⟩
    apply Game.ext
    · exact hrest
    · rfl
    · exact hw.symm
    · show (g.moveResult r.toNat c.toNat).move_count - 1 = g.move_count
      rw [moveResult_move_count]
      ring
    · show (g.history ++ [(r.toNat, c.toNat, g.current)]).dropLast = g.history
      exact List.dropLast_concat

theorem C2_undo_inverse_witness : g1.undo = (true, Game.reset .X) :=
  C2_undo_inverse (r := 0) (c := 0) Reachable.reset (by rfl)

/-- C3: After a successful `make_move(r, c)` from a reachable winner-free
state, the optimized `_check_winner_after_move(r, c)` returns `True`
exactly when `get_winning_line()` returns a line. -/
theorem C3_check_equiv {g g' : Game} {r c : Int} (h : Reachable g)
    (hw : g.winner = none) (hm : g.make_move r c = .ok (true, g')) :
    (Game.check_winner_after_move g'.board r.toNat c.toNat = true ↔
      g'.get_winning_line ≠ none) := by
  have hi := inv_reachable h
  rcases make_move_spec g r c with ⟨ht, he⟩ | ⟨ht, hb, he⟩ | ⟨ht, hb, ho, he⟩ |
    ⟨ht, hb, ho, he⟩
  · obtain ⟨h1, h2⟩ : false = true ∧ g = g' := by simpa using he.symm.trans hm
    exact Bool.noConfusion h1
  · rw [hm] at he
    exact Except.noConfusion he
  · obtain ⟨h1, h2⟩ : false = true ∧ g = g' := by simpa using he.symm.trans hm
    exact Bool.noConfusion h1
  · obtain ⟨h1, h2⟩ : true = true ∧ g.moveResult r.toNat c.toNat = g' := by
      simpa using he.symm.trans hm
    have hr : r.toNat < 3 := by omega
    have hc : c.toNat < 3 := by omega
    have hcur : g.current ≠ S.empty := by rcases hi.cur with h' | h' <;> simp [h']
    have hnl : hasLine g.board = false := (hi.wnone hw).1
    subst h2
    rw [moveResult_board]
    have hiff := check_iff_hasLine hi.wf hr hc ho hcur hnl
    rw [hiff]
    constructor
    · intro hline hnone
      rw [get_winning_line_eq_none, moveResult_board] at hnone
      rw [hnone] at hline
      exact Bool.noConfusion hline
    · intro hne
      cases hl : hasLine (setCell g.board r.toNat c.toNat g.current)
      · exact absurd (get_winning_line_eq_none.2 (by rwa [moveResult_board])) hne
      · rfl

theorem C3_check_equiv_witness :
    Game.check_winner_after_move g1.board 0 0 = true ↔ g1.get_winning_line ≠ none :=
  C3_check_equiv (r := 0) (c := 0) Reachable.reset rfl (by rfl)

/-- C4: From every reachable state, a `make_move` on an occupied in-range
cell, or any `make_move` once `winner` is set, returns `False` and
leaves the whole state unchanged. -/
theorem C4_rejected_move (g : Game) (h : Reachable g) (r c : Int)
    (hrej : g.winner ≠ none ∨
      ((0 ≤ r ∧ r < 3 ∧ 0 ≤ c ∧ c < 3) ∧ getCell g.board r.toNat c.toNat ≠ S.empty)) :
    g.make_move r c = .ok (false, g) := by
  have hi := inv_reachable h
  rcases hrej with hw | ⟨hb, ho⟩
  · exact make_move_winner_set (truthy_of_winner_some hi hw)
  · cases ht : truthy g.winner
    · exact make_move_occupied ht hb ho
    · exact make_move_winner_set ht

theorem C4_rejected_move_witness :
    g1.make_move 0 0 = .ok (false, g1) ∧ gWon.make_move 5 7 = .ok (false, gWon) :=
  ⟨C4_rejected_move g1 (reachable_stepMove Reachable.reset 0 0) 0 0
      (Or.inr ⟨by decide, by decide⟩),
    C4_rejected_move gWon
      (reachable_stepMove (reachable_stepMove (reachable_stepMove (reachable_stepMove
        (reachable_stepMove Reachable.reset 0 0) 1 0) 0 1) 1 1) 0 2) 5 7
      (Or.inl (by decide))⟩

/-- C5: At most nine `make_move` calls in any sequence from `reset()`
return `True`; every reachable state has `move_count ≤ 9`; and at
`move_count = 9` the winner is set, so every further `make_move`
returns `False`. -/
theorem C5_at_most_nine :
    (∀ ms : List (Int × Int), (runMoves (Game.reset .X) ms).2 ≤ 9) ∧
    (∀ g : Game, Reachable g → g.move_count ≤ 9 ∧
      (g.move_count = 9 → g.winner ≠ none ∧
        ∀ r c : Int, g.make_move r c = .ok (false, g))) := by
  have hbound : ∀ g : Game, Reachable g → g.move_count ≤ 9 := by
    intro g h
    have hi := inv_reachable h
    rw [hi.mc]
    have h1 : g.history.length ≤ 9 := by
      rw [← hi.cnt]
      exact countFilled_le hi.wf
    omega
  constructor
  · intro ms
    obtain ⟨hre, hmc⟩ := runMoves_reachable Reachable.reset ms
    have hb := hbound _ hre
    have h0 : (Game.reset .X).move_count = 0 := rfl
    rw [h0] at hmc
    omega
  · intro g h
    refine ⟨hbound g h, fun h9 => ?_⟩
    have hi := inv_reachable h
    have hw : g.winner ≠ none := by
      intro hnone
      have hlt := (hi.wnone hnone).2
      rw [hi.mc] at h9
      omega
    exact ⟨hw, fun r c => make_move_winner_set (truthy_of_winner_some hi hw)⟩

theorem C5_at_most_nine_witness :
    (runMoves (Game.reset .X) tenMoves).2 ≤ 9 ∧ (Game.reset .X).move_count ≤ 9 :=
  ⟨C5_at_most_nine.1 tenMoves, (C5_at_most_nine.2 _ Reachable.reset).1⟩

/-- C6 (counterexample): `undo` is a public `Game` operation other than
`make_move` and `reset`, yet from the reachable state `g1` it succeeds
and changes the board, so "every public Game operation other than a
successful make_move and reset leaves the board unchanged" is false. -/
theorem C6_board_only_moves_counterexample :
    Reachable g1 ∧ g1.undo.1 = true ∧ g1.undo.2.board ≠ g1.board :=
  ⟨reachable_stepMove Reachable.reset 0 0, by decide, by decide⟩

/-- C6 (amended): the board is mutated only through validated moves and
their undos, and is cleared on reset: a `make_move` that returns `False`
and an `undo` that returns `False` leave the entire state (hence the
board) unchanged, `get_state_copy` returns the board unchanged, and
`reset` makes all nine cells empty. -/
theorem C6_board_frame :
    (∀ (g g' : Game) (r c : Int), g.make_move r c = .ok (false, g') → g' = g) ∧
    (∀ g g' : Game, g.undo = (false, g') → g' = g) ∧
    (∀ g : Game, g.get_state_copy = g.board) ∧
    (∀ (s : S) (r c : Nat), r < 3 → c < 3 → getCell (Game.reset s).board r c = S.empty) := by
  refine ⟨?_, ?_, ?_, ?_⟩
  · intro g g' r c h
    rcases make_move_spec g r c with ⟨ht, he⟩ | ⟨ht, hb, he⟩ | ⟨ht, hb, ho, he⟩ |
      ⟨ht, hb, ho, he⟩
    · obtain ⟨h1, h2⟩ : false = false ∧ g = g' := by simpa using he.symm.trans h
      exact h2.symm
    · rw [h] at he
      exact Except.noConfusion he
    · obtain ⟨h1, h2⟩ : false = false ∧ g = g' := by simpa using he.symm.trans h
      exact h2.symm
    · obtain ⟨h1, h2⟩ : true = false ∧ g.moveResult r.toNat c.toNat = g' := by
        simpa using he.symm.trans h
      exact Bool.noConfusion h1
  · intro g g' h
    rcases undo_spec g with ⟨hnil, hu⟩ | ⟨hs, rl, cl, p, hcat, hu⟩
    · obtain ⟨h1, h2⟩ : false = false ∧ g = g' := by simpa using hu.symm.trans h
      exact h2.symm
    · obtain ⟨h1, h2⟩ :
          true = false ∧
            ({ board := setCell g.board rl cl S.empty, current := p, winner := none,
               move_count := g.move_count - 1, history := hs } : Game) = g' := by
        simpa using hu.symm.trans h
      exact Bool.noConfusion h1
  · intro g
    rw [Game.get_state_copy]
    exact List.map_id _
  · intro s r c hr hc
    interval_cases r <;> interval_cases c <;> rfl

theorem C6_board_frame_witness :
    stepMove g1 0 0 = g1 ∧ (Game.reset .X).undo.2 = Game.reset .X ∧
      getCell (Game.reset .O).board 2 2 = S.empty :=
  ⟨C6_board_frame.1 g1 (stepMove g1 0 0) 0 0 (by rfl),
    C6_board_frame.2.1 (Game.reset .X) (Game.reset .X).undo.2 (by rfl),
    C6_board_frame.2.2.2 S.O 2 2 (by omega) (by omega)⟩

/-- C7: the undo operation of the GUI never touches the score counters,
even when invoked right after a game-ending move has incremented one of
them. -/
theorem C7_undo_score_frame :
    ∀ (g : Game) (sc : Score),
      (TicTacToeGUI.do_undo g sc).2.1 = sc ∧
      (TicTacToeGUI.do_undo g (TicTacToeGUI.update_score_on_game_end g.winner sc)).2.1 =
        TicTacToeGUI.update_score_on_game_end g.winner sc := by
  intro g sc
  constructor <;>
    (rcases hg : g.undo with ⟨ok, g'⟩; rw [TicTacToeGUI.do_undo, hg]; cases ok <;> rfl)

/-- C8: `Settings.save` and `Score.save` swallow every write outcome,
and the two `load`s return the full default record (width 640, height
640, theme `"Classic"`, both flags true; all three counters 0) whenever
the file is absent, fails to parse, or fails to convert. -/
theorem C8_persistence :
    (∀ w : Except String Unit, Settings.save w = ()) ∧
    (∀ (a : Bool) (w : Except String Unit), Score.save a w = ()) ∧
    (Settings.load none = {} ∧ (∀ e, Settings.load (some (.error e)) = {}) ∧
      ∀ data e, Settings.parse data = .error e → Settings.load (some (.ok data)) = {}) ∧
    (Score.load none = {} ∧ (∀ e, Score.load (some (.error e)) = {}) ∧
      ∀ data e, Score.parse data = .error e → Score.load (some (.ok data)) = {}) ∧
    ({} : Settings) =
      { width := 640,
        height := 640,
        theme := "Classic",
        show_highlight := true,
        autosave_score := true } ∧
    ({} : Score) = { x_wins := 0, o_wins := 0, draws := 0 } := by
  refine ⟨fun w => ?_, fun a w => ?_,
    ⟨rfl, fun e => rfl, fun data e hpe => ?_⟩,
    ⟨rfl, fun e => rfl, fun data e hpe => ?_⟩, rfl, rfl⟩
  · cases w <;> rfl
  · cases a <;> cases w <;> rfl
  · rw [Settings.load, hpe]
  · rw [Score.load, hpe]

theorem C8_persistence_witness :
    Settings.save (.error "disk full") = () ∧
    Score.save true (.error "disk full") = () ∧
    Settings.load (some (.ok (Json.str "not a dict"))) = {} ∧
    Score.load (some (.ok (Json.obj [("x_wins", Json.null)]))) = {} :=
  ⟨C8_persistence.1 _, C8_persistence.2.1 true _,
    C8_persistence.2.2.1.2.2 _ "AttributeError" (by rfl),
    C8_persistence.2.2.2.1.2.2 _ "TypeError" (by rfl)⟩

/-- C9: `make_move` raises `ValueError` exactly when the winner is unset
and `(r, c)` is out of range; with a winner set even an out-of-range
call returns `False` without raising, the winner check coming first. -/
theorem C9_raise_iff (g : Game) (h : Reachable g) (r c : Int) :
    ((∃ e, g.make_move r c = .error e) ↔
      (g.winner = none ∧ ¬(0 ≤ r ∧ r < 3 ∧ 0 ≤ c ∧ c < 3))) ∧
    (g.winner ≠ none → g.make_move r c = .ok (false, g)) := by
  have hi := inv_reachable h
  constructor
  · constructor
    · rintro ⟨e, he⟩
      rcases make_move_spec g r c with ⟨ht, hq⟩ | ⟨ht, hb, hq⟩ | ⟨ht, hb, ho, hq⟩ |
        ⟨ht, hb, ho, hq⟩
      · rw [he] at hq
        exact Except.noConfusion hq
      · exact ⟨winner_none_of_not_truthy hi ht, hb⟩
      · rw [he] at hq
        exact Except.noConfusion hq
      · rw [he] at hq
        exact Except.noConfusion hq
    · rintro ⟨hw, hb⟩
      exact ⟨"row/col out of range", make_move_raise (by rw [hw]; rfl) hb⟩
  · intro hw
    exact make_move_winner_set (truthy_of_winner_some hi hw)

theorem C9_raise_iff_witness :
    (((∃ e, (Game.reset .X).make_move 5 1 = .error e) ↔
      ((Game.reset .X).winner = none ∧ ¬((0 : Int) ≤ 5 ∧ (5 : Int) < 3 ∧ (0 : Int) ≤ 1 ∧ (1 : Int) < 3))) ∧
      ((Game.reset .X).winner ≠ none → (Game.reset .X).make_move 5 1 = .ok (false, Game.reset .X))) ∧
    gWon.make_move 5 1 = .ok (false, gWon) :=
  ⟨C9_raise_iff (Game.reset .X) Reachable.reset 5 1,
    (C9_raise_iff gWon
      (reachable_stepMove (reachable_stepMove (reachable_stepMove (reachable_stepMove
        (reachable_stepMove Reachable.reset 0 0) 1 0) 0 1) 1 1) 0 2) 5 1).2 (by decide)⟩

/-- C10: in every reachable state, `move_count` equals the history
length, which equals the number of non-empty cells; the cells recorded
in the history are pairwise distinct; and the board holds exactly the
recorded player at every recorded cell. -/
theorem C10_history_sync (g : Game) (h : Reachable g) :
    g.move_count = (g.history.length : Int) ∧
    countFilled g.board = g.history.length ∧
    (g.history.map fun e => (e.1, e.2.1)).Nodup ∧
    ∀ e ∈ g.history, getCell g.board e.1 e.2.1 = e.2.2 := by
  have hi := inv_reachable h
  exact ⟨hi.mc, hi.cnt, hi.nodup, fun e he => (hi.hist e he).2.2.2⟩

theorem C10_history_sync_witness :
    gWon.move_count = (gWon.history.length : Int) ∧
    countFilled gWon.board = gWon.history.length ∧
    (gWon.history.map fun e => (e.1, e.2.1)).Nodup ∧
    ∀ e ∈ gWon.history, getCell gWon.board e.1 e.2.1 = e.2.2 :=
  C10_history_sync gWon
    (reachable_stepMove (reachable_stepMove (reachable_stepMove (reachable_stepMove
      (reachable_stepMove Reachable.reset 0 0) 1 0) 0 1) 1 1) 0 2)

end TTT
